import Mathlib

/-!
Shallow embedding of the `notree` tree library (qutebrowser,
`qutebrowser/misc/notree.py`) and verification of its specification.

Python `Node` objects are modelled as natural-number identifiers into a
heap `Heap := Nat → NodeData`.  Each `NodeData` record holds exactly the
per-object attributes of the Python class: `value`, `__parent`,
`__children`, `collapsed`, `__modified` and `__rendered`.  Mutating
methods become state transformers on the heap.  Recursions of the Python
code that follow parent links or child links (which may diverge on cyclic
heaps, as the original code has no cycle detection) are given a fuel
parameter and return `none` when the fuel runs out, modelling
non-termination; a raised `TreeError` is modelled by the `TResult.err`
constructor carrying the (unchanged) heap at the point of the raise.
-/

namespace Notree

/-- Rendering symbols, from the module-level constants of `notree.py`. -/
def CORNER : String := "└─"

/-- `INTERSECTION = '├─'` in `notree.py`. -/
def INTERSECTION : String := "├─"

/-- `PIPE = '│'` in `notree.py`. -/
def PIPE : String := "│"

/-- The per-object attributes of a Python `Node`. -/
structure NodeData where
  value : String
  parent : Option Nat
  children : List Nat
  collapsed : Bool
  modified : Bool
  rendered : List (String × Nat)
  deriving Repr, DecidableEq

/-- A node identifier that has never been allocated: all fields at their
Python pre-`__init__` defaults. -/
def blank : NodeData :=
  { value := "", parent := none, children := [], collapsed := false,
    modified := false, rendered := [] }

/-- The heap of all node objects, addressed by identity. -/
def Heap : Type := Nat → NodeData

/-- The empty heap. -/
def hEmpty : Heap := fun _ => blank

/-- Point update of the heap: object `i` becomes `d`. -/
def upd (h : Heap) (i : Nat) (d : NodeData) : Heap :=
  fun j => if j = i then d else h j

/-- `Node.path`: the list of nodes from the root to `i`, following
parent links.  `fuel` bounds the number of parent steps; `none` models
the infinite recursion the Python property performs on a cyclic parent
chain. -/
def path (fuel : Nat) (h : Heap) (i : Nat) : Option (List Nat) :=
  match (h i).parent with
  | none => some [i]
  | some p =>
    match fuel with
    | 0 => none
    | f + 1 => (path f h p).map (fun l => l ++ [i])

/-- Set the `modified` flag of every node in `l` (the body of the loop in
`Node.__set_modified`). -/
def markAll (l : List Nat) (h : Heap) : Heap :=
  l.foldl (fun h i => upd h i { h i with modified := true }) h

/-- `Node.__set_modified`: mark `i` and all its ancestors as modified. -/
def setModified (fuel : Nat) (h : Heap) (i : Nat) : Option Heap :=
  (path fuel h i).map (fun l => markAll l h)

/-- `Node.__disown`: remove the first occurrence of `c` from
`p.__children` (Python `list.remove` guarded by a membership test). -/
def disown (h : Heap) (p c : Nat) : Heap :=
  upd h p { h p with children := ((h p).children).erase c }

/-- `Node.__add_child`: append `c` to `p.__children` unless already
present. -/
def addChild (h : Heap) (p c : Nat) : Heap :=
  if c ∈ (h p).children then h
  else upd h p { h p with children := (h p).children ++ [c] }

/-- Raw write of the `__parent` attribute of `c`. -/
def setPar0 (h : Heap) (c : Nat) (v : Option Nat) : Heap :=
  upd h c { h c with parent := v }

/-- First phase of the `Node.parent` setter: if `n` has a parent `p`,
mark `p` (and its ancestors) modified, remove `n` from `p.children` and
clear `n.parent`. -/
def setParentStep1 (fuel : Nat) (h : Heap) (n : Nat) : Option Heap :=
  match (h n).parent with
  | none => some h
  | some p =>
    match setModified fuel h p with
    | none => none
    | some hm => some (setPar0 (disown hm p n) n none)

/-- Second phase of the `Node.parent` setter: if the new value is
`some p2`, append `n` to `p2.children` (unless present) and set
`n.parent = p2`. -/
def setParentStep2 (h1 : Heap) (n : Nat) (v : Option Nat) : Heap :=
  match v with
  | none => h1
  | some p2 => setPar0 (addChild h1 p2 n) n (some p2)

/-- The `Node.parent` setter: detach from the old parent, attach to the
new one, finally mark `n` and all its new ancestors modified. -/
def setParent (fuel : Nat) (h : Heap) (n : Nat) (v : Option Nat) : Option Heap :=
  match setParentStep1 fuel h n with
  | none => none
  | some h1 => setModified fuel (setParentStep2 h1 n v) n

/-- Result of an operation that may raise `TreeError` (`err`, carrying
the heap at the point of the raise), diverge (`out`, fuel exhausted), or
return normally. -/
inductive TResult where
  | err : Heap → TResult
  | out : TResult
  | ok : Heap → TResult

/-- Project the heap out of a successful `TResult`. -/
def TResult.getD (r : TResult) (d : Heap) : Heap :=
  match r with
  | .ok h => h
  | _ => d

/-- Whether a `TResult` is a normal return. -/
def TResult.isOk (r : TResult) : Bool :=
  match r with
  | .ok _ => true
  | _ => false

/-- Sequence a `TResult` with a continuation. -/
def TResult.bind (r : TResult) (f : Heap → TResult) : TResult :=
  match r with
  | .ok h => f h
  | e => e

/-- The loop of the `Node.children` setter: for each entry of `L` whose
current parent is not `n`, assign its parent to `n`. -/
def reparentAll (fuel : Nat) (n : Nat) (h : Heap) : List Nat → Option Heap
  | [] => some h
  | c :: cs =>
    if (h c).parent = some n then reparentAll fuel n h cs
    else
      match setParent fuel h c (some n) with
      | none => none
      | some h2 => reparentAll fuel n h2 cs

/-- The `Node.children` setter: raise `TreeError` (before any mutation)
if `L` has a duplicate entry; otherwise reparent every entry whose parent
is not already `n`, replace `n.__children` by `L` wholesale, and mark `n`
and its ancestors modified. -/
def setChildren (fuel : Nat) (h : Heap) (n : Nat) (L : List Nat) : TResult :=
  if L.Nodup then
    match reparentAll fuel n h L with
    | none => .out
    | some h1 =>
      let h2 := upd h1 n { h1 n with children := L }
      match setModified fuel h2 n with
      | none => .out
      | some h3 => .ok h3
  else .err h

/-- `Node.__init__` at a fresh identifier `i`: initialise the attributes,
call `__set_modified` (parent is still `none`, so this marks only `i`),
then run the `parent` setter if a parent was given, the `children` setter
if a non-empty child list was given, and finally set `collapsed` to
`false`. -/
def newNode (fuel : Nat) (h : Heap) (i : Nat) (v : String)
    (par : Option Nat) (childs : List Nat) : TResult :=
  let h0 : Heap := upd h i
    { value := v, parent := none, children := [], collapsed := false,
      modified := false, rendered := [] }
  match setModified fuel h0 i with
  | none => .out
  | some h1 =>
    let step2 : Option Heap :=
      match par with
      | none => some h1
      | some p => setParent fuel h1 i (some p)
    match step2 with
    | none => .out
    | some h2 =>
      let step3 : TResult :=
        if childs = [] then .ok h2 else setChildren fuel h2 i childs
      match step3 with
      | .ok h3 => .ok (upd h3 i { h3 i with collapsed := false })
      | e => e

/-- Plain attribute write `node.collapsed = b` (no setter in the Python
class: no dirty marking, no other field touched). -/
def setCollapsed (h : Heap) (i : Nat) (b : Bool) : Heap :=
  upd h i { h i with collapsed := b }

/-- The loop body of `Node.render` over the children of `p`.  `r` is the
recursive render call (one fuel step down).  Faithful to the source: the
test `child.children` and the comparison with `self.children[-1]` are
made against the current heap (after the child's own render in the
recursive branch), and for a collapsed child only the first rewritten
line is kept. -/
def goChildren (r : Heap → Nat → Option (List (String × Nat) × Heap))
    (p : Nat) (h : Heap) : List Nat → Option (List (String × Nat) × Heap)
  | [] => some ([], h)
  | c :: cs =>
    if (h c).children ≠ [] then
      match r h c with
      | none => none
      | some (subtree, h1) =>
        let isLast := ((h1 p).children).getLast? = some c
        let rewritten :=
          if isLast then subtree.map (fun q => ("  " ++ q.1, q.2))
          else subtree.map (fun q => (PIPE ++ " " ++ q.1, q.2))
        let ch := if isLast then CORNER else INTERSECTION
        match rewritten with
        | [] => none
        | first :: rest =>
          let contrib :=
            if (h1 c).collapsed then [(ch, first.2)] else (ch, first.2) :: rest
          match goChildren r p h1 cs with
          | none => none
          | some (ls, h2) => some (contrib ++ ls, h2)
    else
      let line :=
        (if ((h p).children).getLast? = some c then CORNER else INTERSECTION, c)
      match goChildren r p h cs with
      | none => none
      | some (ls, h2) => some (line :: ls, h2)

/-- `Node.render`: if the node is not modified return the cached
`__rendered` list unchanged; otherwise recompute the listing from the
children, clear `modified`, store and return the new cache.  `fuel`
bounds the recursion depth, `none` modelling divergence (or the
`IndexError` a crafted empty sub-render would raise). -/
def render (fuel : Nat) : Heap → Nat → Option (List (String × Nat) × Heap) :=
  match fuel with
  | 0 => fun _ _ => none
  | f + 1 => fun h n =>
    if (h n).modified = false then some ((h n).rendered, h)
    else
      match goChildren (render f) n h (h n).children with
      | none => none
      | some (ls, h1) =>
        let result := ("", n) :: ls
        some (result, upd h1 n { h1 n with modified := false, rendered := result })

/-- `TraverseOrder` from `notree.py`. -/
inductive TraverseOrder where
  | pre : TraverseOrder
  | post : TraverseOrder
  deriving DecidableEq

/-- The loop of `Node.traverse` over a child list.  Faithful to the
source: the recursive call `child.traverse(order)` omits
`render_collapsed`, which therefore defaults to `True` below the first
level. -/
def traverseKids (t : Heap → Nat → TraverseOrder → Bool → Option (List Nat))
    (h : Heap) : List Nat → TraverseOrder → Bool → Option (List Nat)
  | [], _, _ => some []
  | c :: cs, ord, rc =>
    let head :=
      if rc || !(h c).collapsed then t h c ord true else some [c]
    match head, traverseKids t h cs ord rc with
    | some a, some b => some (a ++ b)
    | _, _ => none

/-- `Node.traverse`: yield `n` first (PRE) or last (POST) around the
recursive traversal of the children. -/
def traverse (fuel : Nat) : Heap → Nat → TraverseOrder → Bool → Option (List Nat) :=
  match fuel with
  | 0 => fun _ _ _ _ => none
  | f + 1 => fun h n ord rc =>
    match traverseKids (traverse f) h (h n).children ord rc with
    | none => none
    | some mid =>
      some ((if ord = .pre then [n] else []) ++ mid ++
        (if ord = .post then [n] else []))

/-! ### Basic lemmas about the heap primitives -/

@[simp] theorem upd_self (h : Heap) (i : Nat) (d : NodeData) : upd h i d i = d := by
  simp [upd]

theorem upd_other (h : Heap) (i j : Nat) (d : NodeData) (hne : j ≠ i) :
    upd h i d j = h j := by
  simp [upd, hne]

theorem markAll_nil (h : Heap) : markAll [] h = h := rfl

theorem markAll_cons (c : Nat) (cs : List Nat) (h : Heap) :
    markAll (c :: cs) h = markAll cs (upd h c { h c with modified := true }) := rfl

theorem markAll_parent (l : List Nat) (h : Heap) (j : Nat) :
    ((markAll l h) j).parent = (h j).parent := by
  induction l generalizing h with
  | nil => rfl
  | cons c cs ih =>
    rw [markAll_cons, ih]
    by_cases hj : j = c
    · subst hj; simp
    · rw [upd_other _ _ _ _ hj]

theorem markAll_children (l : List Nat) (h : Heap) (j : Nat) :
    ((markAll l h) j).children = (h j).children := by
  induction l generalizing h with
  | nil => rfl
  | cons c cs ih =>
    rw [markAll_cons, ih]
    by_cases hj : j = c
    · subst hj; simp
    · rw [upd_other _ _ _ _ hj]

theorem markAll_modified_of_modified (l : List Nat) (h : Heap) (j : Nat)
    (hm : (h j).modified = true) : ((markAll l h) j).modified = true := by
  induction l generalizing h with
  | nil => exact hm
  | cons c cs ih =>
    rw [markAll_cons]
    apply ih
    by_cases hj : j = c
    · subst hj; simp
    · rw [upd_other _ _ _ _ hj]; exact hm

theorem markAll_modified_mem (l : List Nat) (h : Heap) (j : Nat) (hj : j ∈ l) :
    ((markAll l h) j).modified = true := by
  induction l generalizing h with
  | nil => cases hj
  | cons c cs ih =>
    rw [markAll_cons]
    rcases List.mem_cons.mp hj with hj | hj
    · subst hj
      apply markAll_modified_of_modified
      simp
    · exact ih _ hj

theorem path_congr (F : Nat) (h h2 : Heap)
    (hp : ∀ j, (h j).parent = (h2 j).parent) (i : Nat) :
    path F h i = path F h2 i := by
  induction F generalizing i with
  | zero =>
    unfold path
    rw [hp i]
  | succ F ih =>
    unfold path
    rw [hp i]
    cases (h2 i).parent with
    | none => rfl
    | some p => simp only [ih p]

theorem path_det (F : Nat) : ∀ (F2 : Nat) (h : Heap) (i : Nat) (l l2 : List Nat),
    path F h i = some l → path F2 h i = some l2 → l = l2 := by
  induction F with
  | zero =>
    intro F2 h i l l2 h1 h2
    unfold path at h1 h2
    cases hp : (h i).parent with
    | none =>
      rw [hp] at h1 h2
      cases h1; cases h2; rfl
    | some p =>
      rw [hp] at h1
      cases h1
  | succ F ih =>
    intro F2 h i l l2 h1 h2
    unfold path at h1 h2
    cases hp : (h i).parent with
    | none =>
      rw [hp] at h1 h2
      cases h1; cases h2; rfl
    | some p =>
      rw [hp] at h1 h2
      cases F2 with
      | zero => cases h2
      | succ F2 =>
        rcases Option.map_eq_some'.mp h1 with ⟨lp, hlp, rfl⟩
        rcases Option.map_eq_some'.mp h2 with ⟨lp2, hlp2, rfl⟩
        rw [ih F2 h p lp lp2 hlp hlp2]

theorem path_self_loop (F : Nat) (h : Heap) (i : Nat) (hp : (h i).parent = some i) :
    path F h i = none := by
  induction F with
  | zero => unfold path; rw [hp]
  | succ F ih => unfold path; rw [hp]; simp only [ih]; rfl

theorem setModified_some (fuel : Nat) (h : Heap) (i : Nat) (h2 : Heap)
    (hs : setModified fuel h i = some h2) :
    ∃ l, path fuel h i = some l ∧ h2 = markAll l h := by
  unfold setModified at hs
  cases hp : path fuel h i with
  | none => rw [hp] at hs; cases hs
  | some l =>
    rw [hp] at hs
    exact ⟨l, rfl, (Option.some.inj hs).symm⟩

theorem setModified_parent (fuel : Nat) (h : Heap) (i : Nat) (h2 : Heap)
    (hs : setModified fuel h i = some h2) (j : Nat) :
    (h2 j).parent = (h j).parent := by
  rcases setModified_some fuel h i h2 hs with ⟨l, _, rfl⟩
  exact markAll_parent l h j

theorem setModified_children (fuel : Nat) (h : Heap) (i : Nat) (h2 : Heap)
    (hs : setModified fuel h i = some h2) (j : Nat) :
    (h2 j).children = (h j).children := by
  rcases setModified_some fuel h i h2 hs with ⟨l, _, rfl⟩
  exact markAll_children l h j

/-- The post-state of a successful `__set_modified` call has every node of
the (unchanged) path of `i` marked modified. -/
theorem setModified_marks (fuel F : Nat) (h h2 : Heap) (n : Nat) (l : List Nat)
    (hs : setModified fuel h n = some h2) (hpf : path F h2 n = some l) :
    ∀ a ∈ l, (h2 a).modified = true := by
  rcases setModified_some fuel h n h2 hs with ⟨l0, hp0, rfl⟩
  have hcong : path F (markAll l0 h) n = path F h n :=
    path_congr F (markAll l0 h) h (fun j => markAll_parent l0 h j) n
  rw [hcong] at hpf
  have hll : l = l0 := path_det F fuel h n l l0 hpf hp0
  subst hll
  intro a ha
  exact markAll_modified_mem l h a ha

/-! ### Concrete scenario heaps

Node identifiers in the five-node scenario of the specification:
`0` = `root` (`"foo"`), `1` = `child` (`"bar"`), `2` = `child2` (`"baz"`),
`3` = `child3` (`"lorem"`), `4` = `child4` (`"ipsum"`). -/

/-- `root=Node("foo")`; `child=Node("bar", root)`; `child2=Node("baz", root)`;
`child3=Node("lorem", child)`; `child4=Node("ipsum", child)`. -/
def bld5 : TResult :=
  ((((TResult.ok hEmpty).bind (fun h => newNode 20 h 0 "foo" none [])).bind
    (fun h => newNode 20 h 1 "bar" (some 0) [])).bind
    (fun h => newNode 20 h 2 "baz" (some 0) [])).bind
    (fun h => newNode 20 h 3 "lorem" (some 1) []) |>.bind
    (fun h => newNode 20 h 4 "ipsum" (some 1) [])

/-- The heap after the five-node scenario construction. -/
def scen5 : Heap := bld5.getD hEmpty

/-- A three-level chain with a collapsed middle node: `0` is the root,
`1` its child, `2` (collapsed) the child of `1`, and `3` the child of
`2`. -/
def bldDeep : TResult :=
  (((TResult.ok hEmpty).bind (fun h => newNode 20 h 0 "r" none [])).bind
    (fun h => newNode 20 h 1 "a" (some 0) [])).bind
    (fun h => newNode 20 h 2 "b" (some 1) []) |>.bind
    (fun h => newNode 20 h 3 "c" (some 2) [])

/-- The chain heap with node `2` collapsed. -/
def hDeep : Heap := setCollapsed (bldDeep.getD hEmpty) 2 true

/-- A root `0` with two children `1` and `2`. -/
def bldTri : TResult :=
  ((TResult.ok hEmpty).bind (fun h => newNode 20 h 0 "r" none [])).bind
    (fun h => newNode 20 h 1 "a" (some 0) []) |>.bind
    (fun h => newNode 20 h 2 "b" (some 0) [])

/-- The three-node heap. -/
def hTri : Heap := bldTri.getD hEmpty

/-! ### The claims -/

/-- C5.  For the concrete scenario tree (`0` = root with children
`[1, 2]`, `1` with children `[3, 4]`, none collapsed), `render(root)`
returns exactly `("", root), ("├─", child), ("│ ├─", child3),
("│ └─", child4), ("└─", child2)` in that order. -/
theorem render_scenario_exact :
    bld5.isOk = true ∧
    (render 20 scen5 0).map Prod.fst =
      some [("", 0), ("├─", 1), ("│ ├─", 3), ("│ └─", 4), ("└─", 2)] := by
  constructor
  · rfl
  · rfl

/-- C8.  When the render loop reaches a collapsed child with children of
its own, only the child's first rewritten line — its summary line with
the correct connector — is appended and the rest of the recursively
computed subtree lines are discarded; in the five-node scenario with
`child.collapsed = true`, `render(root)` yields exactly
`("", root), ("├─", child), ("└─", child2)`. -/
theorem render_collapsed_keeps_only_summary :
    (∀ (r : Heap → Nat → Option (List (String × Nat) × Heap)) (p : Nat)
      (h : Heap) (c : Nat) (cs : List Nat) (s0 : String × Nat)
      (srest ls : List (String × Nat)) (h1 h2 : Heap),
      (h c).children ≠ [] →
      r h c = some (s0 :: srest, h1) →
      (h1 c).collapsed = true →
      goChildren r p h1 cs = some (ls, h2) →
      goChildren r p h (c :: cs) =
        some (((if ((h1 p).children).getLast? = some c then CORNER
                else INTERSECTION), s0.2) :: ls, h2)) ∧
    ((render 20 (setCollapsed scen5 1 true) 0).map Prod.fst =
      some [("", 0), ("├─", 1), ("└─", 2)] ∧
    (scen5 1).children = [3, 4]) := by
  constructor
  · intro r p h c cs s0 srest ls h1 h2 hch hr hcol hgc
    simp only [goChildren]
    rw [if_pos hch, hr]
    by_cases hl : ((h1 p).children).getLast? = some c <;>
      simp [hl, hcol, hgc]
  · exact ⟨rfl, rfl⟩

/-- The five-node scenario heap with `child` (node `1`) collapsed. -/
def hS8 : Heap := setCollapsed scen5 1 true

/-- The heap after the recursive render of the collapsed child. -/
def h18 : Heap := ((render 19 hS8 1).getD ([], hEmpty)).2

/-- The heap after the rest of the render loop over `[2]`. -/
def g28 : Heap := ((goChildren (render 19) 0 h18 [2]).getD ([], hEmpty)).2

/-- C8 witness: the concrete render loop of the scenario root keeps only
the summary line `("├─", 1)` of the collapsed child `1`, discarding the
lines of `3` and `4` that its recursive render produced. -/
theorem render_collapsed_keeps_only_summary_witness :
    goChildren (render 19) 0 hS8 [1, 2] =
      some ([("├─", 1), ("└─", 2)], g28) :=
  render_collapsed_keeps_only_summary.1 (render 19) 0 hS8 1 [2] ("", 1)
    [("├─", 3), ("└─", 4)] [("└─", 2)] h18 g28 (by decide) (by rfl)
    (by decide) (by rfl)

/-- C2 (evaluation at the failing input).  In the chain
`0 → 1 → 2 (collapsed) → 3`, `traverse(0, order, render_collapsed=false)`
yields node `3` — a strict descendant of the collapsed node `2` — in both
PRE and POST order, because the recursive call inside `traverse` omits
the `render_collapsed` argument, which therefore reverts to its default
`True` below the first level. -/
theorem traverse_leaks_collapsed_descendants :
    (hDeep 2).collapsed = true ∧
    (hDeep 1).collapsed = false ∧
    traverse 20 hDeep 0 .pre false = some [0, 1, 2, 3] ∧
    traverse 20 hDeep 0 .post false = some [3, 2, 1, 0] := by
  refine ⟨rfl, rfl, rfl, rfl⟩

/-- C1 (counterexample).  After the legal mutation sequence that builds
`0` with children `[1, 2]` and then assigns `children(0) = [1]`, node `2`
still has `parent = some 0` but is no longer an element of
`children(0)`: the bidirectional invariant is broken by a children
assignment that omits a previously owned node. -/
theorem bidirectional_invariant_counterexample :
    bldTri.isOk = true ∧
    (hTri 2).parent = some 0 ∧ (hTri 0).children = [1, 2] ∧
    (setChildren 20 hTri 0 [1]).isOk = true ∧
    ((setChildren 20 hTri 0 [1]).getD hEmpty 2).parent = some 0 ∧
    2 ∉ ((setChildren 20 hTri 0 [1]).getD hEmpty 0).children := by
  refine ⟨rfl, rfl, rfl, rfl, rfl, ?_⟩
  decide

/-- C3 (counterexample).  With `children(0) = [1, 2]` and
`parent(1) = some 0`, repeating `parent(1) = 0` is not a no-op on
sibling order: node `1` is first removed and then re-appended, so
`children(0)` becomes `[2, 1]`. -/
theorem repeat_set_parent_reorders_siblings :
    (hTri 1).parent = some 0 ∧ (hTri 0).children = [1, 2] ∧
    (setParent 20 hTri 1 (some 0)).map (fun h => (h 0).children) =
      some [2, 1] := by
  refine ⟨rfl, rfl, rfl⟩

theorem render_zero (h : Heap) (n : Nat) : render 0 h n = none := rfl

theorem render_succ (f : Nat) (h : Heap) (n : Nat) :
    render (f + 1) h n =
      if (h n).modified = false then some ((h n).rendered, h)
      else
        match goChildren (render f) n h (h n).children with
        | none => none
        | some (ls, h1) =>
          some (("", n) :: ls,
            upd h1 n { h1 n with modified := false, rendered := ("", n) :: ls }) := rfl

/-- A render of an unmodified node is a pure cache hit. -/
theorem render_not_modified (f : Nat) (h : Heap) (n : Nat)
    (hm : (h n).modified = false) :
    render (f + 1) h n = some ((h n).rendered, h) := by
  rw [render_succ, if_pos hm]

/-- C4.  Assigning a children list with a duplicate entry raises
`TreeError` before any mutation — the heap returned with the error is
exactly the input heap — and a duplicate-free list never raises. -/
theorem children_setter_duplicate_error (fuel : Nat) (h : Heap) (n : Nat)
    (L : List Nat) :
    (¬ L.Nodup → setChildren fuel h n L = .err h) ∧
    (L.Nodup → ∀ hx, setChildren fuel h n L ≠ .err hx) := by
  constructor
  · intro hd
    unfold setChildren
    rw [if_neg hd]
  · intro hd hx
    unfold setChildren
    rw [if_pos hd]
    cases hr : reparentAll fuel n h L with
    | none => intro hc; cases hc
    | some h1 =>
      dsimp only
      cases hs : setModified fuel (upd h1 n { h1 n with children := L }) n with
      | none => intro hc; cases hc
      | some h3 => intro hc; cases hc

/-- C4 witness: the duplicate list `[1, 1]` is rejected with the heap
unchanged, and the duplicate-free list `[1]` is not rejected. -/
theorem children_setter_duplicate_error_witness :
    setChildren 20 hTri 0 [1, 1] = .err hTri ∧
    setChildren 20 hTri 0 [1] ≠ .err hTri :=
  ⟨(children_setter_duplicate_error 20 hTri 0 [1, 1]).1 (by decide),
   (children_setter_duplicate_error 20 hTri 0 [1]).2 (by decide) hTri⟩

/-- C7.  Render memoization: a render of an unmodified node returns the
cached sequence with the heap untouched, and two consecutive renders
with no mutation in between return the same sequence (and state). -/
theorem render_memoization (f : Nat) (h : Heap) (n : Nat) :
    ((h n).modified = false → render (f + 1) h n = some ((h n).rendered, h)) ∧
    (∀ r1 h1, render f h n = some (r1, h1) → render f h1 n = some (r1, h1)) := by
  constructor
  · exact render_not_modified f h n
  · intro r1 h1 hr
    cases f with
    | zero => rw [render_zero] at hr; cases hr
    | succ f =>
      rw [render_succ] at hr
      by_cases hm : (h n).modified = false
      · rw [if_pos hm] at hr
        obtain ⟨hA, hB⟩ := Prod.ext_iff.mp (Option.some.inj hr)
        subst hA; subst hB
        exact render_not_modified f h n hm
      · rw [if_neg hm] at hr
        cases hg : goChildren (render f) n h (h n).children with
        | none => rw [hg] at hr; cases hr
        | some p =>
          rcases p with ⟨ls, hgh⟩
          rw [hg] at hr
          dsimp only at hr
          obtain ⟨hA, hB⟩ := Prod.ext_iff.mp (Option.some.inj hr)
          subst hA; subst hB
          have hm1 : ((upd hgh n
              { hgh n with modified := false, rendered := ("", n) :: ls }) n).modified
                = false := by
            rw [upd_self]
          rw [render_not_modified f _ n hm1, upd_self]

/-- The scenario heap after one render of the root (cache filled). -/
def scen5R : Heap := ((render 20 scen5 0).getD ([], hEmpty)).2

/-- The render output of the scenario root. -/
def scen5Out : List (String × Nat) := ((render 20 scen5 0).getD ([], hEmpty)).1

/-- C7 witness: on the rendered scenario heap, the root is clean and a
further render is a pure cache hit; the two consecutive renders of the
scenario root agree. -/
theorem render_memoization_witness :
    (scen5R 0).modified = false ∧
    render (20 + 1) scen5R 0 = some ((scen5R 0).rendered, scen5R) ∧
    render 20 scen5R 0 = some (scen5Out, scen5R) :=
  ⟨by decide,
   (render_memoization 20 scen5R 0).1 (by decide),
   (render_memoization 20 scen5 0).2 scen5Out scen5R (by rfl)⟩

/-- C10.  Writing the `collapsed` flag is a plain attribute write: it
leaves every other object untouched, changes no field of the written
object except `collapsed`, and in particular does not mark anything
dirty — so a node whose cache is valid still renders its previous cached
sequence unchanged after a descendant's `collapsed` flag is toggled. -/
theorem collapsed_write_frame (h : Heap) (i : Nat) (b : Bool) :
    (∀ j, j ≠ i → setCollapsed h i b j = h j) ∧
    ((setCollapsed h i b i).value = (h i).value ∧
     (setCollapsed h i b i).parent = (h i).parent ∧
     (setCollapsed h i b i).children = (h i).children ∧
     (setCollapsed h i b i).modified = (h i).modified ∧
     (setCollapsed h i b i).rendered = (h i).rendered ∧
     (setCollapsed h i b i).collapsed = b) ∧
    (∀ f a, (h a).modified = false →
      render (f + 1) (setCollapsed h i b) a =
        some ((h a).rendered, setCollapsed h i b)) := by
  refine ⟨?_, ?_, ?_⟩
  · intro j hj
    exact upd_other h i j _ hj
  · unfold setCollapsed
    rw [upd_self]
    exact ⟨rfl, rfl, rfl, rfl, rfl, rfl⟩
  · intro f a hm
    have hfields : (setCollapsed h i b a).modified = (h a).modified ∧
        (setCollapsed h i b a).rendered = (h a).rendered := by
      by_cases ha : a = i
      · subst ha
        unfold setCollapsed
        rw [upd_self]
        exact ⟨rfl, rfl⟩
      · unfold setCollapsed
        rw [upd_other h i a _ ha]
        exact ⟨rfl, rfl⟩
    have := render_not_modified f (setCollapsed h i b) a (hfields.1.trans hm)
    rw [this, hfields.2]

/-- C10 witness: on the rendered scenario heap, toggling
`collapsed` on `child` (node `1`) leaves node `5` untouched, and a new
render of the root returns the old cached sequence, which still lists
`child3` (node `3`) with its full prefix. -/
theorem collapsed_write_frame_witness :
    setCollapsed scen5R 1 true 5 = scen5R 5 ∧
    render (8 + 1) (setCollapsed scen5R 1 true) 0 =
      some ((scen5R 0).rendered, setCollapsed scen5R 1 true) ∧
    ("│ ├─", 3) ∈ (scen5R 0).rendered :=
  ⟨(collapsed_write_frame scen5R 1 true).1 5 (by decide),
   (collapsed_write_frame scen5R 1 true).2.2 8 0 (by decide),
   by decide⟩

/-! ### Field-effect lemmas for the parent setter -/

theorem setPar0_other (h : Heap) (c j : Nat) (v : Option Nat) (hj : j ≠ c) :
    setPar0 h c v j = h j := by
  unfold setPar0; exact upd_other h c j _ hj

theorem disown_other (h : Heap) (p c j : Nat) (hj : j ≠ p) :
    disown h p c j = h j := by
  unfold disown; exact upd_other h p j _ hj

theorem addChild_other (h : Heap) (p c j : Nat) (hj : j ≠ p) :
    addChild h p c j = h j := by
  unfold addChild
  by_cases hm : c ∈ (h p).children
  · rw [if_pos hm]
  · rw [if_neg hm]; exact upd_other h p j _ hj

theorem addChild_parent (h : Heap) (p c j : Nat) :
    (addChild h p c j).parent = (h j).parent := by
  by_cases hj : j = p
  · subst hj
    unfold addChild
    by_cases hm : c ∈ (h j).children
    · rw [if_pos hm]
    · rw [if_neg hm, upd_self]
  · rw [addChild_other h p c j hj]

theorem addChild_children_not_mem (h : Heap) (p c : Nat)
    (hm : c ∉ (h p).children) :
    (addChild h p c p).children = (h p).children ++ [c] := by
  unfold addChild
  rw [if_neg hm, upd_self]

/-- On success, the first phase of the parent setter leaves `n` with no
parent and with its own children untouched. -/
theorem setParentStep1_some (fuel : Nat) (h : Heap) (n : Nat) (h1 : Heap)
    (hs : setParentStep1 fuel h n = some h1) :
    (h1 n).parent = none ∧ (h1 n).children = (h n).children := by
  unfold setParentStep1 at hs
  cases hp : (h n).parent with
  | none =>
    rw [hp] at hs
    dsimp only at hs
    cases hs
    exact ⟨hp, rfl⟩
  | some p =>
    rw [hp] at hs
    dsimp only at hs
    cases hsm : setModified fuel h p with
    | none => rw [hsm] at hs; cases hs
    | some hm =>
      rw [hsm] at hs
      cases hs
      have hnp : n ≠ p := by
        intro he
        rw [← he] at hp
        have hnone := path_self_loop fuel h n hp
        rw [he] at hnone
        unfold setModified at hsm
        rw [hnone] at hsm
        cases hsm
      constructor
      · show (setPar0 (disown hm p n) n none n).parent = none
        unfold setPar0
        rw [upd_self]
      · show (setPar0 (disown hm p n) n none n).children = (h n).children
        unfold setPar0
        rw [upd_self]
        show (disown hm p n n).children = (h n).children
        rw [disown_other hm p n n hnp]
        rcases setModified_some fuel h p hm hsm with ⟨l, _, rfl⟩
        exact markAll_children l h n

/-- After the second phase, the parent of `n` is the assigned value
(provided the first phase cleared it). -/
theorem setParentStep2_parent (h1 : Heap) (n : Nat) (v : Option Nat)
    (hpar : (h1 n).parent = none) :
    ((setParentStep2 h1 n v) n).parent = v := by
  cases v with
  | none => exact hpar
  | some p2 =>
    show (setPar0 (addChild h1 p2 n) n (some p2) n).parent = some p2
    unfold setPar0
    rw [upd_self]

/-- The second phase never changes the children of `n` itself, unless the
new parent is `n`. -/
theorem setParentStep2_children_self (h1 : Heap) (n : Nat) (v : Option Nat)
    (hv : v ≠ some n) :
    ((setParentStep2 h1 n v) n).children = (h1 n).children := by
  cases v with
  | none => rfl
  | some p2 =>
    show (setPar0 (addChild h1 p2 n) n (some p2) n).children = (h1 n).children
    unfold setPar0
    rw [upd_self]
    show (addChild h1 p2 n n).children = (h1 n).children
    have hp2 : n ≠ p2 := fun he => hv (by rw [he])
    rw [addChild_other h1 p2 n n hp2]

/-- C9.  Frame property of the parent setter: a successful
`set parent(n, v)` leaves the children list of `n` itself unchanged,
element for element and in order. -/
theorem set_parent_preserves_own_children (fuel : Nat) (h : Heap) (n : Nat)
    (v : Option Nat) (h2 : Heap) (hs : setParent fuel h n v = some h2) :
    (h2 n).children = (h n).children := by
  unfold setParent at hs
  cases hst : setParentStep1 fuel h n with
  | none => rw [hst] at hs; cases hs
  | some h1 =>
    rw [hst] at hs
    dsimp only at hs
    obtain ⟨hp1, hc1⟩ := setParentStep1_some fuel h n h1 hst
    have hvn : v ≠ some n := by
      intro he
      subst he
      have hp2 := setParentStep2_parent h1 n (some n) hp1
      have hnone := path_self_loop fuel (setParentStep2 h1 n (some n)) n hp2
      unfold setModified at hs
      rw [hnone] at hs
      cases hs
    have hpres := setModified_children fuel _ n h2 hs n
    rw [hpres, setParentStep2_children_self h1 n v hvn, hc1]

/-- A four-node heap: root `0` with children `[1, 2]`, node `3` a child
of `1`. -/
def bldQuad : TResult :=
  (((TResult.ok hEmpty).bind (fun h => newNode 20 h 0 "r" none [])).bind
    (fun h => newNode 20 h 1 "a" (some 0) [])).bind
    (fun h => newNode 20 h 2 "b" (some 0) []) |>.bind
    (fun h => newNode 20 h 3 "c" (some 1) [])

/-- The four-node heap. -/
def hQuad : Heap := bldQuad.getD hEmpty

/-- C9 witness: reparenting node `1` (whose children are `[3]`) under
node `2` leaves the children of `1` unchanged. -/
theorem set_parent_preserves_own_children_witness :
    (hQuad 1).children = [3] ∧
    (((setParent 20 hQuad 1 (some 2)).get (by decide)) 1).children =
      (hQuad 1).children :=
  ⟨by decide,
   set_parent_preserves_own_children 20 hQuad 1 (some 2) _
     (Option.some_get _).symm⟩

/-- A `TResult` that is `ok` is `ok` of its projection. -/
theorem tresult_ok_getD (r : TResult) (d : Heap) (hk : r.isOk = true) :
    r = .ok (r.getD d) := by
  cases r with
  | err h => cases hk
  | out => cases hk
  | ok h => rfl

/-- C6.  Dirty cascade: a successful parent assignment or children
assignment marks the mutated node and every ancestor on its
post-mutation path as dirty, and a render of a dirty node never returns
the old cache: it stores and returns a freshly computed sequence. -/
theorem dirty_cascade :
    (∀ fuel h n v h2 F l, setParent fuel h n v = some h2 →
      path F h2 n = some l → ∀ a ∈ l, (h2 a).modified = true) ∧
    (∀ fuel h n L h2 F l, setChildren fuel h n L = .ok h2 →
      path F h2 n = some l → ∀ a ∈ l, (h2 a).modified = true) ∧
    (∀ f h n r h2, (h n).modified = true → render f h n = some (r, h2) →
      (h2 n).modified = false ∧ (h2 n).rendered = r) := by
  refine ⟨?_, ?_, ?_⟩
  · intro fuel h n v h2 F l hs hpf
    unfold setParent at hs
    cases hst : setParentStep1 fuel h n with
    | none => rw [hst] at hs; cases hs
    | some h1 =>
      rw [hst] at hs
      dsimp only at hs
      exact setModified_marks fuel F _ h2 n l hs hpf
  · intro fuel h n L h2 F l hs hpf
    unfold setChildren at hs
    by_cases hnd : L.Nodup
    · rw [if_pos hnd] at hs
      cases hr : reparentAll fuel n h L with
      | none => rw [hr] at hs; cases hs
      | some h1 =>
        rw [hr] at hs
        dsimp only at hs
        cases hsm : setModified fuel (upd h1 n { h1 n with children := L }) n with
        | none => rw [hsm] at hs; cases hs
        | some h3 =>
          rw [hsm] at hs
          injection hs with heq
          rw [← heq] at hpf
          intro a ha
          rw [← heq]
          exact setModified_marks fuel F _ h3 n l hsm hpf a ha
    · rw [if_neg hnd] at hs; cases hs
  · intro f h n r h2 hm hr
    cases f with
    | zero => rw [render_zero] at hr; cases hr
    | succ f =>
      rw [render_succ] at hr
      rw [if_neg (fun hc => by rw [hm] at hc; cases hc)] at hr
      cases hg : goChildren (render f) n h (h n).children with
      | none => rw [hg] at hr; cases hr
      | some p =>
        rcases p with ⟨ls, hgh⟩
        rw [hg] at hr
        dsimp only at hr
        obtain ⟨hA, hB⟩ := Prod.ext_iff.mp (Option.some.inj hr)
        dsimp only at hA hB
        rw [← hB, upd_self, ← hA]
        exact ⟨rfl, rfl⟩

/-- C6 witness: reparenting node `3` under node `2` marks `3`, its new
parent `2` and the root `0` (the whole post-mutation path `[0, 2, 3]`)
dirty; assigning `children(0) = [1]` marks `0` dirty. -/
theorem dirty_cascade_witness :
    (((setParent 20 hQuad 3 (some 2)).get (by decide)) 0).modified = true ∧
    (((setParent 20 hQuad 3 (some 2)).get (by decide)) 2).modified = true ∧
    (((setParent 20 hQuad 3 (some 2)).get (by decide)) 3).modified = true ∧
    (((setChildren 20 hTri 0 [1]).getD hEmpty) 0).modified = true := by
  have h1 := dirty_cascade.1 20 hQuad 3 (some 2)
    ((setParent 20 hQuad 3 (some 2)).get (by decide)) 20 [0, 2, 3]
    (Option.some_get _).symm (by decide)
  have h2 := dirty_cascade.2.1 20 hTri 0 [1]
    ((setChildren 20 hTri 0 [1]).getD hEmpty) 20 [0]
    (tresult_ok_getD _ hEmpty (by decide)) (by decide)
  exact ⟨h1 0 (by decide), h1 2 (by decide), h1 3 (by decide),
    h2 0 (by decide)⟩

theorem setPar0_children (h : Heap) (c j : Nat) (v : Option Nat) :
    ((setPar0 h c v) j).children = (h j).children := by
  by_cases hj : j = c
  · subst hj; unfold setPar0; rw [upd_self]
  · rw [setPar0_other h c j v hj]

theorem disown_parent (h : Heap) (p c j : Nat) :
    ((disown h p c) j).parent = (h j).parent := by
  by_cases hj : j = p
  · subst hj; unfold disown; rw [upd_self]
  · rw [disown_other h p c j hj]

/-- C3 (amended).  Re-assigning the same parent `p` to `n` is not a pure
no-op: it preserves `n.parent`, the children of every node other than
`p`, and the parents of every node other than `n`, but moves `n` to the
end of `p.children` (which becomes `erase n ++ [n]`). -/
theorem repeat_set_parent_moves_to_end (fuel : Nat) (h : Heap) (n p : Nat)
    (h2 : Heap) (hpar : (h n).parent = some p)
    (hnd : ((h p).children).Nodup)
    (hs : setParent fuel h n (some p) = some h2) :
    (h2 p).children = ((h p).children).erase n ++ [n] ∧
    (h2 n).parent = some p ∧
    (∀ q, q ≠ p → (h2 q).children = (h q).children) ∧
    (∀ q, q ≠ n → (h2 q).parent = (h q).parent) := by
  unfold setParent at hs
  cases hst : setParentStep1 fuel h n with
  | none => rw [hst] at hs; cases hs
  | some h1 =>
    rw [hst] at hs
    dsimp only at hs
    unfold setParentStep1 at hst
    rw [hpar] at hst
    dsimp only at hst
    cases hsm : setModified fuel h p with
    | none => rw [hsm] at hst; cases hst
    | some hm =>
      rw [hsm] at hst
      cases hst
      have hnp : n ≠ p := by
        intro he
        rw [he] at hpar
        have hnone := path_self_loop fuel h p hpar
        unfold setModified at hsm
        rw [hnone] at hsm
        cases hsm
      -- structure of hm
      rcases setModified_some fuel h p hm hsm with ⟨lm, _, rfl⟩
      -- facts about h1 = setPar0 (disown (markAll lm h) p n) n none
      have h1_children : ∀ q, q ≠ p →
          ((setPar0 (disown (markAll lm h) p n) n none) q).children =
            (h q).children := by
        intro q hq
        rw [setPar0_children]
        unfold disown
        rw [upd_other _ p q _ hq]
        exact markAll_children lm h q
      have h1_children_p :
          ((setPar0 (disown (markAll lm h) p n) n none) p).children =
            ((h p).children).erase n := by
        rw [setPar0_children]
        unfold disown
        rw [upd_self]
        show ((markAll lm h p).children).erase n = ((h p).children).erase n
        rw [markAll_children]
      have h1_parent : ∀ q, q ≠ n →
          ((setPar0 (disown (markAll lm h) p n) n none) q).parent =
            (h q).parent := by
        intro q hq
        rw [setPar0_other _ n q _ hq, disown_parent, markAll_parent]
      have h1_parent_n :
          ((setPar0 (disown (markAll lm h) p n) n none) n).parent = none := by
        unfold setPar0
        rw [upd_self]
      -- the attach phase
      set h1 := setPar0 (disown (markAll lm h) p n) n none with hh1
      have hnmem : n ∉ (h1 p).children := by
        rw [h1_children_p]
        exact hnd.not_mem_erase
      have hmid_children_p :
          ((setParentStep2 h1 n (some p)) p).children =
            ((h p).children).erase n ++ [n] := by
        show ((setPar0 (addChild h1 p n) n (some p)) p).children = _
        rw [setPar0_children, addChild_children_not_mem h1 p n hnmem,
          h1_children_p]
      have hmid_children : ∀ q, q ≠ p →
          ((setParentStep2 h1 n (some p)) q).children = (h q).children := by
        intro q hq
        show ((setPar0 (addChild h1 p n) n (some p)) q).children = _
        rw [setPar0_children, addChild_other h1 p n q hq]
        exact h1_children q hq
      have hmid_parent_n :
          ((setParentStep2 h1 n (some p)) n).parent = some p :=
        setParentStep2_parent h1 n (some p) h1_parent_n
      have hmid_parent : ∀ q, q ≠ n →
          ((setParentStep2 h1 n (some p)) q).parent = (h q).parent := by
        intro q hq
        show ((setPar0 (addChild h1 p n) n (some p)) q).parent = _
        rw [setPar0_other _ n q _ hq, addChild_parent]
        exact h1_parent q hq
      -- the final dirty marking preserves structure
      have hsc := setModified_children fuel _ n h2 hs
      have hsp := setModified_parent fuel _ n h2 hs
      refine ⟨?_, ?_, ?_, ?_⟩
      · rw [hsc p, hmid_children_p]
      · rw [hsp n, hmid_parent_n]
      · intro q hq
        rw [hsc q, hmid_children q hq]
      · intro q hq
        rw [hsp q, hmid_parent q hq]

/-- C3 witness: on the three-node heap (children of `0` are `[1, 2]`),
re-assigning `parent(1) = 0` yields children `[2, 1]` for node `0`,
keeps `parent(1) = 0`, and leaves the children of `1` and `2` and the
parents of `0` and `2` unchanged. -/
theorem repeat_set_parent_moves_to_end_witness :
    (((setParent 20 hTri 1 (some 0)).get (by decide)) 0).children =
      ((hTri 0).children).erase 1 ++ [1] ∧
    (((setParent 20 hTri 1 (some 0)).get (by decide)) 1).parent = some 0 ∧
    (((setParent 20 hTri 1 (some 0)).get (by decide)) 2).children =
      (hTri 2).children ∧
    (((setParent 20 hTri 1 (some 0)).get (by decide)) 0).parent =
      (hTri 0).parent := by
  have hth := repeat_set_parent_moves_to_end 20 hTri 1 0
    ((setParent 20 hTri 1 (some 0)).get (by decide))
    (by decide) (by decide) (Option.some_get _).symm
  exact ⟨hth.1, hth.2.1, hth.2.2.1 2 (by decide), hth.2.2.2 0 (by decide)⟩

/-- The structural invariant of the specification: bidirectional
parent/child consistency together with duplicate-freedom of every
children list. -/
def Inv (h : Heap) : Prop :=
  (∀ c p : Nat, (h c).parent = some p ↔ c ∈ (h p).children) ∧
  (∀ p : Nat, ((h p).children).Nodup)

/-- Two heaps with the same parent and children fields everywhere satisfy
the invariant together. -/
theorem inv_of_structure_eq (h h2 : Heap)
    (hp : ∀ j, (h2 j).parent = (h j).parent)
    (hc : ∀ j, (h2 j).children = (h j).children) (hi : Inv h) : Inv h2 := by
  constructor
  · intro c p
    rw [hp c, hc p]
    exact hi.1 c p
  · intro p
    rw [hc p]
    exact hi.2 p

/-- Detaching `n` from its parent `p` (the first phase of the parent
setter) preserves the invariant. -/
theorem inv_detach (h : Heap) (n p : Nat) (hi : Inv h)
    (hpar : (h n).parent = some p) (hnp : n ≠ p) :
    Inv (setPar0 (disown h p n) n none) := by
  have hpf : ∀ j, ((setPar0 (disown h p n) n none) j).parent =
      if j = n then none else (h j).parent := by
    intro j
    by_cases hj : j = n
    · subst hj
      unfold setPar0
      rw [upd_self, if_pos rfl]
    · rw [setPar0_other _ n j _ hj, disown_parent, if_neg hj]
  have hcf : ∀ j, ((setPar0 (disown h p n) n none) j).children =
      if j = p then ((h p).children).erase n else (h j).children := by
    intro j
    rw [setPar0_children]
    by_cases hj : j = p
    · subst hj
      unfold disown
      rw [upd_self, if_pos rfl]
    · unfold disown
      rw [upd_other _ p j _ hj, if_neg hj]
  constructor
  · intro c q
    rw [hpf c, hcf q]
    by_cases hc : c = n
    · subst hc
      rw [if_pos rfl]
      by_cases hq : q = p
      · subst hq
        rw [if_pos rfl]
        constructor
        · intro hcon; cases hcon
        · intro hmem; exact absurd hmem (hi.2 q).not_mem_erase
      · rw [if_neg hq]
        constructor
        · intro hcon; cases hcon
        · intro hmem
          have h2 := (hi.1 c q).mpr hmem
          rw [hpar] at h2
          exact absurd (Option.some.inj h2).symm hq
    · rw [if_neg hc]
      by_cases hq : q = p
      · subst hq
        rw [if_pos rfl, (hi.2 q).mem_erase_iff]
        constructor
        · intro hp2
          exact ⟨hc, (hi.1 c q).mp hp2⟩
        · intro hand
          exact (hi.1 c q).mpr hand.2
      · rw [if_neg hq]
        exact hi.1 c q
  · intro q
    rw [hcf q]
    by_cases hq : q = p
    · subst hq
      rw [if_pos rfl]
      exact (hi.2 q).erase n
    · rw [if_neg hq]
      exact hi.2 q

/-- Attaching a detached `n` under `p2` (the second phase of the parent
setter) preserves the invariant. -/
theorem inv_attach (h : Heap) (n p2 : Nat) (hi : Inv h)
    (hpar : (h n).parent = none) :
    Inv (setPar0 (addChild h p2 n) n (some p2)) := by
  have hnmem : n ∉ (h p2).children := by
    intro hmem
    have h2 := (hi.1 n p2).mpr hmem
    rw [hpar] at h2
    cases h2
  have hpf : ∀ j, ((setPar0 (addChild h p2 n) n (some p2)) j).parent =
      if j = n then some p2 else (h j).parent := by
    intro j
    by_cases hj : j = n
    · subst hj
      unfold setPar0
      rw [upd_self, if_pos rfl]
    · rw [setPar0_other _ n j _ hj, addChild_parent, if_neg hj]
  have hcf : ∀ j, ((setPar0 (addChild h p2 n) n (some p2)) j).children =
      if j = p2 then (h p2).children ++ [n] else (h j).children := by
    intro j
    rw [setPar0_children]
    by_cases hj : j = p2
    · subst hj
      rw [addChild_children_not_mem h j n hnmem, if_pos rfl]
    · rw [addChild_other h p2 n j hj, if_neg hj]
  constructor
  · intro c q
    rw [hpf c, hcf q]
    by_cases hc : c = n
    · subst hc
      rw [if_pos rfl]
      by_cases hq : q = p2
      · subst hq
        rw [if_pos rfl]
        simp
      · rw [if_neg hq]
        constructor
        · intro hce
          exact absurd (Option.some.inj hce).symm hq
        · intro hmem
          have h2 := (hi.1 c q).mpr hmem
          rw [hpar] at h2
          cases h2
    · rw [if_neg hc]
      by_cases hq : q = p2
      · subst hq
        rw [if_pos rfl, List.mem_append]
        constructor
        · intro hp2m
          exact Or.inl ((hi.1 c q).mp hp2m)
        · intro hor
          rcases hor with hm2 | hm2
          · exact (hi.1 c q).mpr hm2
          · rw [List.mem_singleton] at hm2
            exact absurd hm2 hc
      · rw [if_neg hq]
        exact hi.1 c q
  · intro q
    rw [hcf q]
    by_cases hq : q = p2
    · subst hq
      rw [if_pos rfl, List.nodup_append]
      refine ⟨hi.2 q, List.nodup_singleton n, ?_⟩
      intro a ha hb
      rw [List.mem_singleton] at hb
      subst hb
      exact hnmem ha
    · rw [if_neg hq]
      exact hi.2 q

/-- C1 (amended).  Every successful parent assignment preserves the
bidirectional invariant (with duplicate-freedom); the biconditional is
not preserved in general because a children assignment that omits a
previously owned node leaves that node's parent pointer stale. -/
theorem set_parent_preserves_invariant (fuel : Nat) (h : Heap) (n : Nat)
    (v : Option Nat) (h2 : Heap) (hi : Inv h)
    (hs : setParent fuel h n v = some h2) : Inv h2 := by
  unfold setParent at hs
  cases hst : setParentStep1 fuel h n with
  | none => rw [hst] at hs; cases hs
  | some h1 =>
    rw [hst] at hs
    dsimp only at hs
    have key : Inv h1 ∧ (h1 n).parent = none := by
      unfold setParentStep1 at hst
      cases hpar : (h n).parent with
      | none =>
        rw [hpar] at hst
        dsimp only at hst
        cases hst
        exact ⟨hi, hpar⟩
      | some p =>
        rw [hpar] at hst
        dsimp only at hst
        cases hsm : setModified fuel h p with
        | none => rw [hsm] at hst; cases hst
        | some hm =>
          rw [hsm] at hst
          cases hst
          have hnp : n ≠ p := by
            intro he
            rw [he] at hpar
            have hnone := path_self_loop fuel h p hpar
            unfold setModified at hsm
            rw [hnone] at hsm
            cases hsm
          rcases setModified_some fuel h p hm hsm with ⟨lm, _, rfl⟩
          have him : Inv (markAll lm h) :=
            inv_of_structure_eq h _ (markAll_parent lm h) (markAll_children lm h) hi
          have hparm : ((markAll lm h) n).parent = some p := by
            rw [markAll_parent]
            exact hpar
          constructor
          · exact inv_detach (markAll lm h) n p him hparm hnp
          · unfold setPar0
            rw [upd_self]
    obtain ⟨hi1, hp1⟩ := key
    have hi2 : Inv (setParentStep2 h1 n v) := by
      cases v with
      | none => exact hi1
      | some p2 => exact inv_attach h1 n p2 hi1 hp1
    rcases setModified_some fuel _ n h2 hs with ⟨l, _, rfl⟩
    exact inv_of_structure_eq _ _ (markAll_parent l _) (markAll_children l _) hi2

/-- A small hand-built heap satisfying the invariant: `0` owns `[1]`,
`1` has parent `0`. -/
def hw1 : Heap :=
  upd (upd hEmpty 0 { blank with children := [1] }) 1 { blank with parent := some 0 }

theorem inv_hw1 : Inv hw1 := by
  constructor
  · intro c p
    unfold hw1 upd hEmpty blank
    by_cases hc1 : c = 1 <;> by_cases hc0 : c = 0 <;>
      by_cases hp1 : p = 1 <;> by_cases hp0 : p = 0 <;>
      (simp_all; try omega)
  · intro p
    unfold hw1 upd hEmpty blank
    by_cases hp1 : p = 1 <;> by_cases hp0 : p = 0 <;> simp_all

/-- C1 witness: detaching node `1` from node `0` on the two-node heap
yields a heap that still satisfies the invariant. -/
theorem set_parent_preserves_invariant_witness :
    Inv ((setParent 20 hw1 1 none).get (by decide)) :=
  set_parent_preserves_invariant 20 hw1 1 none _ inv_hw1 (Option.some_get _).symm

end Notree
